/-
Verification of the declarative schema-driven transformation engine
(`trezorlib/mapping.py`, class `ProtoAdapter`): hint compilation,
case-insensitive path resolution, per-field type coercion, and
empty-record elision.

The Python source is shallowly embedded: dynamic values become the
inductive `PyVal`, Python exceptions become the `PyErr` error type of an
`Except` monad, and each method of `ProtoAdapter` becomes a Lean
function of the same name.  The `protobuf` and `messages` modules are
external collaborators of this file (they are not part of the verified
source); their field-metadata shape is modelled from the specification.
-/
import Mathlib

set_option maxHeartbeats 1000000

namespace Mapping

/-- Python exceptions that the engine can raise.  `adapterError`
corresponds to the source's `AdapterError(TypeError)`; `valueError` to
`ValueError` (used for hint-shape construction errors); `binasciiError`
to `binascii.Error` raised by `binascii.unhexlify`; `attributeError` to
the `AttributeError` raised by `.keys()` on a non-mapping;
`runtimeError` to `RuntimeError`; `typeErr` to other `TypeError`s of the
Python runtime (e.g. indexing a non-mapping, iterating a non-iterable,
`int()` of an unconvertible object). -/
inductive PyErr where
  | adapterError (msg : String)
  | valueError (msg : String)
  | binasciiError
  | attributeError
  | runtimeError (msg : String)
  | typeErr
  deriving Repr, DecidableEq

/-- Dynamically-typed Python values flowing through the engine: the
nested key-value input trees, raw extracted values, and typed message
instances.  `dict` keeps entries in insertion order, as Python dicts
do.  `record classId fields` models an instance of a protobuf message
class: the class is identified by `classId` and the instance holds its
assigned fields in assignment order. -/
inductive PyVal where
  | none
  | bool (b : Bool)
  | int (n : Int)
  | str (s : String)
  | bytes (bs : List Nat)
  | list (xs : List PyVal)
  | dict (entries : List (String × PyVal))
  | record (classId : Nat) (fields : List (String × PyVal))
  deriving Repr

/-- Python `d[k]` on a dict, as an `Option`: first entry with key `k`. -/
def dictGet (k : String) : List (String × PyVal) → Option PyVal
  | [] => Option.none
  | (k', v) :: rest => if k' = k then some v else dictGet k rest

/-- Python `d[k]` where `k` is known to be present (`find_with_case`
only returns keys of the dict, so the default is never reached). -/
def dictGetD (k : String) (entries : List (String × PyVal)) : PyVal :=
  (dictGet k entries).getD PyVal.none

/-- One left-to-right pass of `re.sub(r'([a-z0-9])([A-Z])', r'\1_\2', key)`:
an underscore is inserted between a lowercase-or-digit character and a
following uppercase character.  A two-character match cannot start at
its own second character (that character is uppercase), so the
non-overlapping regex scan coincides with this one-step recursion. -/
def camelSub : List Char → List Char
  | [] => []
  | [c] => [c]
  | a :: b :: rest =>
    if (a.isLower || a.isDigit) && b.isUpper then
      a :: '_' :: camelSub (b :: rest)
    else
      a :: camelSub (b :: rest)

/-- `camelcase_re.sub(r'\1_\2', key).lower()` from `find_with_case`. -/
def camel_to_snake (key : String) : String :=
  String.mk ((camelSub key.data).map Char.toLower)

/-- `ProtoAdapter.find_with_case`: exact key match first; if absent and
camel-case mode is on, the first key (in insertion order) whose
lowercase-with-underscores normal form equals `string`. -/
def find_with_case (camel_case : Bool) (string : String) (keys : List String) :
    Option String :=
  if string ∈ keys then some string
  else if camel_case then
    keys.find? (fun key => camel_to_snake key == string)
  else Option.none

/-- The loop of `ProtoAdapter.traverse_path` over the already-split
path.  At each step the current root must be a mapping (Python calls
`root.keys()`, which raises `AttributeError` otherwise); a step whose
key is absent returns `None` for the whole traversal. -/
def traverse_steps (camel_case : Bool) : List String → PyVal → Except PyErr PyVal
  | [], root => .ok root
  | step :: rest, root =>
    match root with
    | .dict entries =>
      match find_with_case camel_case step (entries.map Prod.fst) with
      | Option.none => .ok .none
      | some key => traverse_steps camel_case rest (dictGetD key entries)
    | _ => .error .attributeError

/-- Accumulator pass of Python `pathstr.split('.')`: scan the
characters, cutting at every dot; `acc` holds the current segment
reversed. -/
def splitDotAux : List Char → List Char → List String
  | [], acc => [String.mk acc.reverse]
  | c :: rest, acc =>
    if c = '.' then String.mk acc.reverse :: splitDotAux rest []
    else splitDotAux rest (c :: acc)

/-- Python `pathstr.split('.')`: e.g. `"a.b"` to `["a", "b"]`, and the
empty string to `[""]`. -/
def pySplitDot (s : String) : List String :=
  splitDotAux s.data []

/-- `ProtoAdapter.traverse_path`: split the dotted path and walk it. -/
def traverse_path (camel_case : Bool) (pathstr : String) (data : PyVal) :
    Except PyErr PyVal :=
  traverse_steps camel_case (pySplitDot pathstr) data

mutual
/-- Modelled from the spec: the schema provider (`protobuf` module) is
an external collaborator not under the verified sources.  Per spec §3,
a field's metadata is its name, a type tag (`Message` with a nested
schema reference, `UnsignedInt`, `SignedInt`, `Bool`, `ByteString`,
`Text`), and a repeated flag; a message schema is an ordered field list
identified by a unique class identity (`classId`, standing for Python
class identity, which `isinstance`/`issubclass` checks compare). -/
inductive PType where
  | msg (m : MsgType)
  | uvarint
  | sint32
  | boolT
  | bytesT
  | unicode

inductive Fields where
  | nil
  | cons (name : String) (ti : PType) (repeated : Bool) (rest : Fields)

inductive MsgType where
  | mk (classId : Nat) (fields : Fields)
end

/-- The class identity of a message schema. -/
def MsgType.classIdOf : MsgType → Nat
  | .mk classId _ => classId

/-- The ordered field list of a message schema. -/
def MsgType.fieldsOf : MsgType → Fields
  | .mk _ fields => fields

/-- Whether a type tag is a nested message type
(`issubclass(typeinfo, protobuf.MessageType)`). -/
def PType.isMsg : PType → Bool
  | .msg _ => true
  | _ => false

mutual
/-- The `AdapterDefinition` union from the source: a hint is Python
`None` (`skip`), a path string, a callable transform, a hint
dictionary, a list of hints, or a two-tuple `(rename, hint)`. -/
inductive Hint where
  | skip
  | path (p : String)
  | fn (f : PyVal → Except PyErr PyVal)
  | dict (d : HintDict)
  | listOf (l : HintList)
  | pair (rename : String) (snd : Hint)

inductive HintDict where
  | nil
  | cons (name : String) (h : Hint) (rest : HintDict)

inductive HintList where
  | nil
  | cons (h : Hint) (rest : HintList)
end

/-- Python `name in hints` / `hints[name]` combined: the hint stored
under `name`, if any. -/
def HintDict.find? : HintDict → String → Option Hint
  | .nil, _ => Option.none
  | .cons n h rest, name => if n = name then some h else rest.find? name

/-- Length of a hint list (`len(hint)`). -/
def HintList.length : HintList → Nat
  | .nil => 0
  | .cons _ rest => 1 + rest.length

mutual
/-- A compiled per-field action and the compiled adapter.  `read p` is
the closure built by `read_field`; `transform f` a callable hint used
verbatim; `sub a` a nested sub-adapter built by `dict_to_adapter`;
`mapSub`/`mapFn` the closure built by `map_action` with a per-item
sub-adapter or transform.  `Procs` is the `processors` table: per
schema field its `(typeinfo, repeated, action)` triple, in schema
order, where `act = Option.none` is a skipped field. -/
inductive Action where
  | read (p : String)
  | transform (f : PyVal → Except PyErr PyVal)
  | sub (a : Adapter)
  | mapSub (rename : String) (a : Adapter)
  | mapFn (rename : String) (f : PyVal → Except PyErr PyVal)

inductive Procs where
  | nil
  | cons (name : String) (ti : PType) (repeated : Bool) (act : Option Action) (rest : Procs)

inductive Adapter where
  | mk (camel_case : Bool) (bytes_conversion : Nat) (select_field : Option String)
       (message_type : MsgType) (processors : Procs)
end

/-- The field names of a processor table, in schema order. -/
def Procs.names : Procs → List String
  | .nil => []
  | .cons name _ _ _ rest => name :: rest.names

/-- `ProtoAdapter.BYTES_NOCONVERSION`. -/
def BYTES_NOCONVERSION : Nat := 0
/-- `ProtoAdapter.BYTES_HEX`. -/
def BYTES_HEX : Nat := 1
/-- `ProtoAdapter.BYTES_BASE64`. -/
def BYTES_BASE64 : Nat := 2

theorem HintDict.sizeOf_pos : ∀ (hd : HintDict), 1 ≤ sizeOf hd
  | .nil => by simp_arith
  | .cons _ _ _ => by simp_arith

theorem HintDict.find?_sizeOf : ∀ (hd : HintDict) (name : String) (h : Hint),
    hd.find? name = some h → sizeOf h < sizeOf hd
  | .nil, name, h, hfind => by simp [HintDict.find?] at hfind
  | .cons n h' rest, name, h, hfind => by
    simp only [HintDict.find?] at hfind
    by_cases hn : n = name
    · simp [hn] at hfind
      subst hfind
      simp_arith
    · simp [hn] at hfind
      have := HintDict.find?_sizeOf rest name h hfind
      simp_arith
      omega

theorem HintDict.find?_sizeOf_le (hd : HintDict) (name : String) :
    sizeOf (hd.find? name) ≤ sizeOf hd := by
  cases hfind : hd.find? name with
  | none =>
    have := hd.sizeOf_pos
    simp_arith
    omega
  | some h =>
    have := HintDict.find?_sizeOf hd name h hfind
    simp_arith
    omega


mutual
/-- `ProtoAdapter.__init__`: normalize `bytes_conversion` (Python
`bytes_conversion or self.BYTES_HEX` maps both `None` and
`BYTES_NOCONVERSION = 0` to `BYTES_HEX`, both being falsy; `0` encodes
both here) and compile the hint table.  Construction errors surface as
`Except.error`. -/
def mkAdapter (message_type : MsgType) (hints : HintDict) (select_field : Option String)
    (camel_case : Bool) (bytes_conversion : Nat) : Except PyErr Adapter :=
  match message_type with
  | .mk classId fields =>
    let bcN := if bytes_conversion = 0 then BYTES_HEX else bytes_conversion
    Except.bind (preprocess_hints camel_case bcN fields hints) (fun procs =>
      .ok (.mk camel_case bcN select_field (.mk classId fields) procs))
termination_by sizeOf message_type + sizeOf hints
decreasing_by
  all_goals simp_wf
  all_goals simp_arith

/-- The loop of `ProtoAdapter.preprocess_hints`: iterate over the
schema's declared fields; for each field use its explicit hint if one
exists, else default to `None` for a repeated field, to `(name, {})`
for a nested-message field (which lands in the dict branch of the hint
interpreter with `rename = name`), and to the plain path `name`
otherwise. -/
def preprocess_hints (camel_case : Bool) (bc : Nat) (fields : Fields) (hints : HintDict) :
    Except PyErr Procs :=
  match fields with
  | .nil => .ok .nil
  | .cons name ti repeated rest =>
    Except.bind (compileField camel_case bc name ti repeated (hints.find? name)) (fun act =>
      Except.bind (preprocess_hints camel_case bc rest hints) (fun restProcs =>
        .ok (.cons name ti repeated act restProcs)))
termination_by sizeOf fields + sizeOf hints
decreasing_by
  all_goals simp_wf
  all_goals
    (first
      | (have hle := HintDict.find?_sizeOf_le hints name
         simp_arith
         omega)
      | (simp_arith; omega)
      | simp_arith
      | omega)

/-- Hint selection for one schema field (source lines 150-161): an
explicit hint is interpreted as written; a repeated field without one
is skipped (`hint = None`); a nested-message field without one
auto-adapts structure (`hint = (name, {})`, which is the dict
branch with `rename = name`); any other field without one auto-adapts
by its own name (`hint = name`, the string branch, whose
repeated-field check passes as the field is not repeated). -/
def compileField (camel_case : Bool) (bc : Nat) (name : String) (ti : PType)
    (repeated : Bool) (hint? : Option Hint) : Except PyErr (Option Action) :=
  match hint? with
  | some hint => compileHint camel_case bc name ti repeated hint
  | Option.none =>
    if repeated then
      -- hint = None: can't auto-copy repeating fields
      .ok Option.none
    else
      match ti with
      | .msg m =>
        -- hint = (name, {}): auto adapt structure
        compileDict camel_case bc name (.msg m) repeated name .nil
      | _ =>
        -- hint = name: auto adapt field
        .ok (some (.read name))
termination_by sizeOf ti + sizeOf hint? + 1
decreasing_by
  all_goals simp_wf
  all_goals simp_arith

/-- The hint interpreter: the body of the `preprocess_hints` loop after
the hint is selected (source lines 163-206).  A two-tuple supplies the
`rename`; a bare dict or list uses the field's own name. -/
def compileHint (camel_case : Bool) (bc : Nat) (name : String) (ti : PType)
    (repeated : Bool) (hint : Hint) : Except PyErr (Option Action) :=
  match hint with
  | .skip => .ok Option.none
  | .path p =>
    if repeated then .error (.valueError s!"Cannot adapt repeating field {name} with str.")
    else .ok (some (.read p))
  | .fn f => .ok (some (.transform f))
  | .dict d => compileDict camel_case bc name ti repeated name d
  | .pair rename (.dict d) => compileDict camel_case bc name ti repeated rename d
  | .listOf l => compileList camel_case bc name ti repeated name l
  | .pair rename (.listOf l) => compileList camel_case bc name ti repeated rename l
  | .pair _ _ => .error (.valueError s!"Unexpected second item for field {name}. Expected dict or list.")
termination_by sizeOf ti + sizeOf hint
decreasing_by
  all_goals simp_wf
  all_goals simp_arith

/-- The dict branch of the hint interpreter: a hint dictionary must
target a non-repeated nested-message field and builds a sub-adapter
with `select_field = rename` (`dict_to_adapter`). -/
def compileDict (camel_case : Bool) (bc : Nat) (name : String) (ti : PType)
    (repeated : Bool) (rename : String) (d : HintDict) : Except PyErr (Option Action) :=
  if repeated then .error (.valueError s!"Cannot adapt repeating field {name} with dict.")
  else
    match ti with
    | .msg m =>
      Except.bind (mkAdapter m d (some rename) camel_case bc) (fun a =>
        .ok (some (.sub a)))
    | _ => .error (.valueError s!"Cannot adapt non-protobuf field {name} with dict.")
termination_by sizeOf ti + sizeOf d
decreasing_by
  all_goals simp_wf
  all_goals simp_arith

/-- The list branch of the hint interpreter: a list hint must target a
repeated field and hold exactly one item, a hint dictionary (per-item
sub-adapter with no `select_field`) or a callable (per-item
transform); the action is `map_action rename item`. -/
def compileList (camel_case : Bool) (bc : Nat) (name : String) (ti : PType)
    (repeated : Bool) (rename : String) (l : HintList) : Except PyErr (Option Action) :=
  if !repeated then .error (.valueError s!"Cannot adapt non-repeating field {name} with list.")
  else
    match l with
    | .cons item .nil =>
      match item with
      | .dict d =>
        match ti with
        | .msg m =>
          Except.bind (mkAdapter m d Option.none camel_case bc) (fun a =>
            .ok (some (.mapSub rename a)))
        | _ => .error (.valueError s!"Cannot adapt non-protobuf field {name} with dict.")
      | .fn f => .ok (some (.mapFn rename f))
      | _ => .error (.valueError s!"Unexpected list item for field {name}. Expected dict or callable")
    | _ => .error (.valueError s!"Adapter for repeating field {name} must be a one-item list.")
termination_by sizeOf ti + sizeOf l
decreasing_by
  all_goals simp_wf
  all_goals simp_arith
end

/-- Python `int(value)`: identity on ints, `True`/`False` to `1`/`0`,
decimal parse of text and byte strings.  `Option.none` models the
`TypeError`/`ValueError` that `int()` raises on other inputs (exotic
accepted forms such as surrounding whitespace, a leading `+` or
underscore separators are not exercised by any adapter here). -/
def pyInt : PyVal → Option Int
  | .int n => some n
  | .bool b => some (if b then 1 else 0)
  | .str s => s.toInt?
  | .bytes bs => (String.mk (bs.map Char.ofNat)).toInt?
  | _ => Option.none

/-- Python `bool(value)`: truthiness. -/
def truthy : PyVal → Bool
  | .none => false
  | .bool b => b
  | .int n => n != 0
  | .str s => s != ""
  | .bytes bs => !bs.isEmpty
  | .list xs => !xs.isEmpty
  | .dict entries => !entries.isEmpty
  | .record _ _ => true

/-- Python `str(value)`.  Scalar cases are modelled exactly; `str()` of
containers and message instances renders via Python `repr`, which no
adapter in this development exercises, so those are modelled coarsely. -/
def pyStr : PyVal → String
  | .none => "None"
  | .bool b => if b then "True" else "False"
  | .int n => toString n
  | .str s => s
  | .bytes _ => "<bytes>"
  | .list _ => "<list>"
  | .dict _ => "<dict>"
  | .record _ _ => "<record>"

/-- Value of one hexadecimal digit, if the character is one. -/
def hexDigit (c : Char) : Option Nat :=
  if '0' ≤ c ∧ c ≤ '9' then some (c.toNat - 48)
  else if 'a' ≤ c ∧ c ≤ 'f' then some (c.toNat - 87)
  else if 'A' ≤ c ∧ c ≤ 'F' then some (c.toNat - 55)
  else Option.none

/-- `binascii.unhexlify`: pairs of hex digits to bytes; `Option.none`
models the `binascii.Error` raised on an odd-length input or a
non-hexadecimal digit. -/
def unhexlify : List Char → Option (List Nat)
  | [] => some []
  | [_] => Option.none
  | a :: b :: rest =>
    match hexDigit a, hexDigit b, unhexlify rest with
    | some hi, some lo, some r => some ((16 * hi + lo) :: r)
    | _, _, _ => Option.none

/-- Python `isinstance(value, typeinfo)` for a message class: the value
is an instance whose class is the schema's class. -/
def isInstance (value : PyVal) (m : MsgType) : Bool :=
  match value with
  | .record classId _ => classId == m.classIdOf
  | _ => false

/-- `ProtoAdapter._coerce_type` with `repeated=False` (the recursive
call for list elements also uses `repeated=False`, so the repeated
wrapper is factored out into `coerce`).  `None` passes through; a
message value must be an instance of the field's class; unsigned
integers reject negatives; bools coerce by truthiness; byte fields
accept text or bytes and hex-decode them; text stringifies.  An
unknown type tag would be `RuntimeError`, which cannot arise here
because `PType` is closed. -/
def coerce1 (name : String) (value : PyVal) (ti : PType) : Except PyErr PyVal :=
  match value with
  | .none => .ok .none
  | _ =>
    match ti with
    | .msg m =>
      if isInstance value m then .ok value
      else .error (.adapterError s!"Invalid subclass on {name}")
    | .uvarint =>
      match pyInt value with
      | some n =>
        if n < 0 then .error (.adapterError s!"Negative number in unsigned field {name}")
        else .ok (.int n)
      | Option.none => .error .typeErr
    | .sint32 =>
      match pyInt value with
      | some n => .ok (.int n)
      | Option.none => .error .typeErr
    | .boolT => .ok (.bool (truthy value))
    | .bytesT =>
      match value with
      | .str s =>
        match unhexlify s.data with
        | some bs => .ok (.bytes bs)
        | Option.none => .error .binasciiError
      | .bytes bs =>
        match unhexlify (bs.map Char.ofNat) with
        | some out => .ok (.bytes out)
        | Option.none => .error .binasciiError
      | _ => .error (.adapterError s!"Expected str or bytes as a value for {name}")
    | .unicode => .ok (.str (pyStr value))

/-- Elementwise coercion of a repeated field's list
(`list(self._coerce_type(name, x, typeinfo, False) for x in value)`). -/
def coerceList (name : String) (ti : PType) : List PyVal → Except PyErr (List PyVal)
  | [] => .ok []
  | x :: xs =>
    Except.bind (coerce1 name x ti) (fun v =>
      Except.bind (coerceList name ti xs) (fun vs => .ok (v :: vs)))

/-- `ProtoAdapter._coerce_type`: a repeated field requires a list and
coerces every element independently with `repeated=False`; otherwise
coerce the single value. -/
def coerce (name : String) (value : PyVal) (ti : PType) (repeated : Bool) :
    Except PyErr PyVal :=
  if repeated then
    match value with
    | .list xs => Except.bind (coerceList name ti xs) (fun vs => .ok (.list vs))
    | _ => .error (.adapterError s!"Expected list for {name}")
  else coerce1 name value ti

/-- Python iteration over a value, as used by `map(action, iterable)`:
lists yield elements, strings their characters, dicts their keys, byte
strings their byte values; other values are not iterable
(`TypeError`). -/
def pyIter : PyVal → Option (List PyVal)
  | .list xs => some xs
  | .str s => some (s.data.map (fun c => PyVal.str (String.mk [c])))
  | .dict entries => some (entries.map (fun e => PyVal.str e.1))
  | .bytes bs => some (bs.map (fun b => PyVal.int (Int.ofNat b)))
  | _ => Option.none

/-- The emptiness test of `__call__`:
`value is not None and value != []` is false exactly for `None` and the
empty list (no other value of the engine compares equal to `[]`). -/
def PyVal.isNoneOrEmptyList : PyVal → Bool
  | .none => true
  | .list [] => true
  | _ => false

/-- Whether a value is a mapping. -/
def PyVal.isDict : PyVal → Bool
  | .dict _ => true
  | _ => false

/-- The `select_field` step at the head of `__call__`: a falsy
`select_field` (Python `None` or the empty string) leaves the input
tree as the working tree; otherwise the key is looked up directly
(case-sensitively) and `KeyError` is caught, declaring the sub-message
not present (`Option.none` result).  Indexing a non-mapping raises
`TypeError`, which is not caught. -/
def selectStep (select_field : Option String) (data : PyVal) :
    Except PyErr (Option PyVal) :=
  match select_field with
  | Option.none => .ok (some data)
  | some s =>
    if s = "" then .ok (some data)
    else
      match data with
      | .dict entries =>
        match dictGet s entries with
        | some v => .ok (some v)
        | Option.none => .ok Option.none
      | _ => .error .typeErr

/-- `list(map(f, iterable))` for a per-item transform `f`: apply `f` to
every element in order, propagating the first error. -/
def mapMF (f : PyVal → Except PyErr PyVal) : List PyVal → Except PyErr (List PyVal)
  | [] => .ok []
  | x :: xs =>
    Except.bind (f x) (fun v =>
      Except.bind (mapMF f xs) (fun vs => .ok (v :: vs)))

/-- Assembly step of the `__call__` loop: prepend a computed field to
the result of the remaining fields, updating the `empty_obj` flag. -/
def consField (name : String) (value : PyVal)
    (restRes : Except PyErr (List (String × PyVal) × Bool)) :
    Except PyErr (List (String × PyVal) × Bool) :=
  Except.bind restRes (fun r =>
    .ok ((name, value) :: r.1, value.isNoneOrEmptyList && r.2))

/-- The elision step at the end of `__call__`: `None` if every field
ended up `None`/`[]`, else the assembled record instance. -/
def elide (classId : Nat) (r : List (String × PyVal) × Bool) : PyVal :=
  if r.2 then .none else .record classId r.1

mutual
/-- `ProtoAdapter.__call__`: run the `select_field` step, then every
compiled action in schema order, coercing each raw value; a field with
no action contributes `[]` (repeated) or `None`; if every field ended
up `None`/`[]` the whole record elides to `None`, otherwise a record
instance with every field set is returned. -/
def applyAdapter (a : Adapter) (data : PyVal) : Except PyErr PyVal :=
  match a with
  | .mk camel_case bc select_field message_type processors =>
    Except.bind (selectStep select_field data) (fun sel? =>
      match sel? with
      | Option.none => .ok .none
      | some workTree =>
        Except.bind (runProcs camel_case bc processors workTree) (fun r =>
          .ok (elide message_type.classIdOf r)))
termination_by (sizeOf a, 0)
decreasing_by
  all_goals simp_wf
  all_goals (apply Prod.Lex.left; simp_arith)

/-- The field loop of `__call__`: compute each field's typed value in
schema order (the first coercion error aborts the invocation), return
the assignments and the `empty_obj` flag. -/
def runProcs (camel_case : Bool) (bc : Nat) (ps : Procs) (data : PyVal) :
    Except PyErr (List (String × PyVal) × Bool) :=
  match ps with
  | .nil => .ok ([], true)
  | .cons name ti repeated act rest =>
    Except.bind (fieldValue camel_case bc name ti repeated act data) (fun value =>
      consField name value (runProcs camel_case bc rest data))
termination_by (sizeOf ps, 0)
decreasing_by
  all_goals simp_wf
  all_goals (apply Prod.Lex.left; simp_arith)

/-- One field's typed value: a field with no action contributes `[]`
(repeated) or `None` without coercion; otherwise the compiled action
runs and its raw result is coerced. -/
def fieldValue (camel_case : Bool) (bc : Nat) (name : String) (ti : PType)
    (repeated : Bool) (act : Option Action) (data : PyVal) : Except PyErr PyVal :=
  match act with
  | Option.none => .ok (if repeated then .list [] else PyVal.none)
  | some action =>
    Except.bind (runAction camel_case bc action data) (fun raw =>
      coerce name raw ti repeated)
termination_by (sizeOf act, 1)
decreasing_by
  all_goals simp_wf
  all_goals (apply Prod.Lex.left; simp_arith)

/-- Evaluation of a compiled action against the working tree: path
reads resolve via `traverse_path`; transforms run verbatim; a nested
sub-adapter runs its full contract; a map action resolves `rename`,
yields `[]` when the path resolved to `None`, and otherwise applies
the per-item adapter or transform to every element of the iterable, in
order. -/
def runAction (camel_case : Bool) (bc : Nat) (action : Action) (data : PyVal) :
    Except PyErr PyVal :=
  match action with
  | .read p => traverse_path camel_case p data
  | .transform f => f data
  | .sub a => applyAdapter a data
  | .mapSub rename a =>
    Except.bind (traverse_path camel_case rename data) (fun iterable =>
      match iterable with
      | .none => .ok (.list [])
      | v =>
        match pyIter v with
        | some items => Except.bind (mapApply a items) (fun vs => .ok (.list vs))
        | Option.none => .error .typeErr)
  | .mapFn rename f =>
    Except.bind (traverse_path camel_case rename data) (fun iterable =>
      match iterable with
      | .none => .ok (.list [])
      | v =>
        match pyIter v with
        | some items => Except.bind (mapMF f items) (fun vs => .ok (.list vs))
        | Option.none => .error .typeErr)
termination_by (sizeOf action, 0)
decreasing_by
  all_goals simp_wf
  all_goals (apply Prod.Lex.left; simp_arith)

/-- `list(map(action, iterable))` for a per-item sub-adapter: run the
sub-adapter on every element in order, propagating the first error. -/
def mapApply (a : Adapter) (items : List PyVal) : Except PyErr (List PyVal) :=
  match items with
  | [] => .ok []
  | x :: xs =>
    Except.bind (applyAdapter a x) (fun v =>
      Except.bind (mapApply a xs) (fun vs => .ok (v :: vs)))
termination_by (sizeOf a, items.length)
decreasing_by
  all_goals simp_wf
  · apply Prod.Lex.right
    simp_arith
  · apply Prod.Lex.right
    simp_arith
end

/-- A sequence of independent invocations of one compiled adapter. -/
def applySeq (a : Adapter) (inputs : List PyVal) : List (Except PyErr PyVal) :=
  inputs.map (applyAdapter a)

theorem exc_bind_ok {α β : Type} (v : α) (f : α → Except PyErr β) :
    Except.bind (Except.ok v : Except PyErr α) f = f v := rfl

theorem exc_bind_err {α β : Type} (e : PyErr) (f : α → Except PyErr β) :
    Except.bind (Except.error e : Except PyErr α) f = .error e := rfl

theorem exc_bind_assoc {α β γ : Type} (x : Except PyErr α) (f : α → Except PyErr β)
    (g : β → Except PyErr γ) :
    Except.bind (Except.bind x f) g = Except.bind x (fun v => Except.bind (f v) g) := by
  cases x <;> rfl

/-- Whether a value is text or a byte string
(`isinstance(value, (str, bytes))`). -/
def PyVal.isTextual : PyVal → Bool
  | .str _ => true
  | .bytes _ => true
  | _ => false

/-- Whether a value is Python `None`. -/
def PyVal.isNone : PyVal → Bool
  | .none => true
  | _ => false

/-- Whether adapter construction succeeded. -/
def constructionOk : Except PyErr Adapter → Bool
  | .ok _ => true
  | .error _ => false

/-- A `List.find?` over a concatenation whose left part has no match
finds the first matching element of the right part. -/
theorem find?_first_match {p : String → Bool} : ∀ (pre : List String) (k : String)
    (post : List String), (∀ x ∈ pre, p x = false) → p k = true →
    (pre ++ k :: post).find? p = some k
  | [], k, post, _, hk => by simp [List.find?, hk]
  | x :: pre, k, post, hpre, hk => by
    have hx : p x = false := hpre x (by simp)
    simp only [List.cons_append, List.find?, hx]
    exact find?_first_match pre k post (fun y hy => hpre y (by simp [hy])) hk

/-- Walking into a non-mapping with at least one step remaining is the
`AttributeError` of `root.keys()`. -/
theorem traverse_steps_cons_nondict (camel_case : Bool) (step : String)
    (rest : List String) (tree : PyVal) (hd : tree.isDict = false) :
    traverse_steps camel_case (step :: rest) tree = .error .attributeError := by
  cases tree <;> simp_all [traverse_steps, PyVal.isDict]

/-- Error characterization of the path-walk loop: the only exception it
can produce is the `AttributeError` of `.keys()` on a non-mapping, and
then some strict prefix of the steps resolves to a non-mapping value. -/
theorem traverse_steps_error_characterization :
    ∀ (camel_case : Bool) (steps : List String) (tree : PyVal) (e : PyErr),
    traverse_steps camel_case steps tree = .error e →
    e = .attributeError ∧
      ∃ pre step post, steps = pre ++ step :: post ∧
        ∃ v, traverse_steps camel_case pre tree = .ok v ∧ v.isDict = false
  | camel_case, [], tree, e, h => by simp [traverse_steps] at h
  | camel_case, step :: rest, tree, e, h => by
    by_cases hd : tree.isDict = true
    · obtain ⟨entries, rfl⟩ : ∃ entries, tree = .dict entries := by
        cases tree <;> simp [PyVal.isDict] at hd ⊢
      simp only [traverse_steps] at h
      cases hfind : find_with_case camel_case step (entries.map Prod.fst) with
      | none => rw [hfind] at h; simp at h
      | some key =>
        rw [hfind] at h
        obtain ⟨he, pre, step', post, hsteps, v, hpre, hv⟩ :=
          traverse_steps_error_characterization camel_case rest (dictGetD key entries) e h
        refine ⟨he, step :: pre, step', post, by simp [hsteps], v, ?_, hv⟩
        simp only [traverse_steps, hfind]
        exact hpre
    · have hd' : tree.isDict = false := by simpa using hd
      rw [traverse_steps_cons_nondict camel_case step rest tree hd'] at h
      injection h with he
      exact ⟨he.symm, [], step, rest, rfl, tree, by simp [traverse_steps], hd'⟩

/-- C2: path-step resolution attempts an exact key match first; only
when the exact key is absent and camel-case mode is enabled does it
scan the level's keys in insertion order, normalizing each to
lowercase-with-underscores, and return the first key whose normalized
form equals the step (with camel-case mode off, an absent key resolves
to nothing).  A tree holding both `"time_stamp"` and `"timeStamp"`
resolves step `"time_stamp"` to the exact key; a tree holding only
`"timeStamp"` resolves it via the fallback. -/
theorem C2_case_insensitive_resolution :
    (∀ (camel_case : Bool) (s : String) (keys : List String),
        s ∈ keys → find_with_case camel_case s keys = some s)
  ∧ (∀ (s k : String) (pre post : List String),
        s ∉ pre ++ k :: post →
        (∀ x ∈ pre, camel_to_snake x ≠ s) →
        camel_to_snake k = s →
        find_with_case true s (pre ++ k :: post) = some k)
  ∧ (∀ (s : String) (keys : List String),
        s ∉ keys → find_with_case false s keys = Option.none)
  ∧ traverse_path true "time_stamp"
      (.dict [("time_stamp", .int 1), ("timeStamp", .int 2)]) = .ok (.int 1)
  ∧ traverse_path true "time_stamp"
      (.dict [("timeStamp", .int 2)]) = .ok (.int 2) := by
  refine ⟨?_, ?_, ?_, rfl, rfl⟩
  · intro camel_case s keys hmem
    simp [find_with_case, hmem]
  · intro s k pre post hs hpre hk
    have hfind : (pre ++ k :: post).find? (fun key => camel_to_snake key == s) = some k := by
      apply find?_first_match
      · intro x hx
        simp [beq_eq_false_iff_ne, hpre x hx]
      · simp [beq_iff_eq, hk]
    simp [find_with_case, hs, hfind]
  · intro s keys hs
    simp [find_with_case, hs]

/-- Witness for C2: the step `"time_stamp"` against keys
`["version", "timeStamp"]` resolves to `"timeStamp"` via the camelCase
fallback, and an exact key resolves to itself. -/
theorem C2_witness :
    find_with_case true "time_stamp" ["version", "timeStamp"] = some "timeStamp" ∧
    find_with_case true "x" ["x", "y"] = some "x" :=
  ⟨C2_case_insensitive_resolution.2.1 "time_stamp" "timeStamp" ["version"] []
      (by decide) (by decide) (by decide),
    C2_case_insensitive_resolution.1 true "x" ["x", "y"] (by decide)⟩

/-- C5 counterexample: resolving the dotted path `"a.b"` against the
tree `{"a": 5}` raises `AttributeError` (Python `(5).keys()`) instead
of returning null, refuting "never raises an exception". -/
theorem C5_counterexample :
    traverse_path true "a.b" (.dict [("a", .int 5)]) = .error .attributeError := rfl

/-- C5 amended: resolution returns null immediately when a step's key
is absent from the current mapping level, with no exception in that
case; the only exception resolution can raise is the `AttributeError`
produced when some strict prefix of the path resolves to a non-mapping
value while steps remain. -/
theorem C5_amended_absent_yields_null :
    (∀ (camel_case : Bool) (pathstr : String) (tree : PyVal) (e : PyErr),
        traverse_path camel_case pathstr tree = .error e →
        e = .attributeError ∧
          ∃ pre step post, pySplitDot pathstr = pre ++ step :: post ∧
            ∃ v, traverse_steps camel_case pre tree = .ok v ∧ v.isDict = false)
  ∧ (∀ (camel_case : Bool) (entries : List (String × PyVal)) (step : String)
        (rest : List String),
        find_with_case camel_case step (entries.map Prod.fst) = Option.none →
        traverse_steps camel_case (step :: rest) (.dict entries) = .ok .none) := by
  constructor
  · intro camel_case pathstr tree e h
    exact traverse_steps_error_characterization camel_case (pySplitDot pathstr) tree e h
  · intro camel_case entries step rest hfind
    simp [traverse_steps, hfind]

/-- Witness for the amended C5: a step absent from a mapping level
yields null without an exception. -/
theorem C5_witness :
    traverse_steps true ["b"] (.dict [("a", .int 5)]) = .ok .none :=
  C5_amended_absent_yields_null.2 true [("a", .int 5)] "b" [] (by decide)

/-- C9: coercing a raw value whose integer conversion is negative into
a non-repeated unsigned field raises the adapter's coercion error,
while the same value on a signed field succeeds and returns the
integer. -/
theorem C9_unsigned_rejects_negative (name : String) (value : PyVal) (n : Int)
    (hconv : pyInt value = some n) (hneg : n < 0) :
    (∃ msg, coerce name value .uvarint false = .error (.adapterError msg)) ∧
    coerce name value .sint32 false = .ok (.int n) := by
  cases value <;> simp_all [coerce, coerce1, pyInt]

/-- Witness for C9 at the value `-7`. -/
theorem C9_witness :
    (∃ msg, coerce "fee" (.int (-7)) .uvarint false = .error (.adapterError msg)) ∧
    coerce "fee" (.int (-7)) .sint32 false = .ok (.int (-7)) :=
  C9_unsigned_rejects_negative "fee" (.int (-7)) (-7) rfl (by decide)

/-- C10: for a non-repeated byte field, only a raw value that is
neither text nor bytes (`None` apart, which short-circuits before the
type check) raises the declared `AdapterError`; text or bytes whose
content is not valid hexadecimal instead surfaces the hex decoder's
`binascii.Error`, a different exception class than `AdapterError`; on
text input the outcome is always decoded bytes or `binascii.Error`,
never an `AdapterError`. -/
theorem C10_bytes_error_classes :
    (∀ (name : String) (value : PyVal), value.isTextual = false →
        value.isNone = false →
        ∃ msg, coerce name value .bytesT false = .error (.adapterError msg))
  ∧ (∀ (name s : String), unhexlify s.data = Option.none →
        coerce name (.str s) .bytesT false = .error .binasciiError)
  ∧ (∀ (name : String) (bs : List Nat), unhexlify (bs.map Char.ofNat) = Option.none →
        coerce name (.bytes bs) .bytesT false = .error .binasciiError)
  ∧ (∀ msg, PyErr.binasciiError ≠ PyErr.adapterError msg)
  ∧ (∀ (name s : String),
        (∃ out, coerce name (.str s) .bytesT false = .ok (.bytes out)) ∨
        coerce name (.str s) .bytesT false = .error .binasciiError) := by
  refine ⟨?_, ?_, ?_, ?_, ?_⟩
  · intro name value ht hn
    cases value <;> simp_all [coerce, coerce1, PyVal.isTextual, PyVal.isNone]
  · intro name s h
    simp [coerce, coerce1, h]
  · intro name bs h
    simp [coerce, coerce1, h]
  · intro msg h
    exact absurd h (by simp)
  · intro name s
    cases h : unhexlify s.data with
    | none => exact Or.inr (by simp [coerce, coerce1, h])
    | some out => exact Or.inl ⟨out, by simp [coerce, coerce1, h]⟩

/-- Witness for C10: a numeric value raises `AdapterError`, while the
non-hexadecimal text `"zz"` raises `binascii.Error`. -/
theorem C10_witness :
    (∃ msg, coerce "payload" (.int 3) .bytesT false = .error (.adapterError msg)) ∧
    coerce "payload" (.str "zz") .bytesT false = .error .binasciiError :=
  ⟨C10_bytes_error_classes.1 "payload" (.int 3) (by decide) (by decide),
    C10_bytes_error_classes.2.1 "payload" "zz" (by decide)⟩

/-- The `empty_obj` flag computed by the field loop is set exactly
when every computed field value is `None` or the empty list. -/
theorem runProcs_flag : ∀ (camel_case : Bool) (bc : Nat) (ps : Procs) (data : PyVal)
    (assigns : List (String × PyVal)) (flag : Bool),
    runProcs camel_case bc ps data = .ok (assigns, flag) →
    (flag = true ↔ ∀ p ∈ assigns, (Prod.snd p).isNoneOrEmptyList = true)
  | camel_case, bc, .nil, data, assigns, flag, h => by
    simp only [runProcs, Except.ok.injEq, Prod.mk.injEq] at h
    obtain ⟨h1, h2⟩ := h
    subst h1
    subst h2
    simp
  | camel_case, bc, .cons name ti repeated act rest, data, assigns, flag, h => by
    simp only [runProcs] at h
    cases hfv : fieldValue camel_case bc name ti repeated act data with
    | error e => rw [hfv] at h; simp [exc_bind_err] at h
    | ok value =>
      rw [hfv, exc_bind_ok] at h
      cases hrest : runProcs camel_case bc rest data with
      | error e =>
        simp only [consField, hrest, exc_bind_err] at h
        exact absurd h (by simp)
      | ok p =>
        obtain ⟨as, emp⟩ := p
        have hIH := runProcs_flag camel_case bc rest data as emp hrest
        simp only [consField, hrest, exc_bind_ok, Except.ok.injEq, Prod.mk.injEq] at h
        obtain ⟨h1, h2⟩ := h
        subst h1
        subst h2
        constructor
        · intro hand
          simp only [Bool.and_eq_true] at hand
          intro p hp
          rcases List.mem_cons.mp hp with hp | hp
          · subst hp
            exact hand.1
          · exact (hIH.mp hand.2) p hp
        · intro hall
          have hv := hall (name, value) (by simp)
          have has : ∀ p ∈ as, (Prod.snd p).isNoneOrEmptyList = true :=
            fun p hp => hall p (by simp [hp])
          simp only [Prod.snd] at hv
          simp [hv, hIH.mpr has]
termination_by _ _ ps _ _ _ _ => sizeOf ps
decreasing_by
  all_goals simp_wf
  all_goals simp_arith

/-- The field loop assigns exactly the processor table's field names,
in schema order. -/
theorem runProcs_names : ∀ (camel_case : Bool) (bc : Nat) (ps : Procs) (data : PyVal)
    (assigns : List (String × PyVal)) (flag : Bool),
    runProcs camel_case bc ps data = .ok (assigns, flag) →
    assigns.map Prod.fst = ps.names
  | camel_case, bc, .nil, data, assigns, flag, h => by
    simp only [runProcs, Except.ok.injEq, Prod.mk.injEq] at h
    obtain ⟨h1, h2⟩ := h
    subst h1
    simp [Procs.names]
  | camel_case, bc, .cons name ti repeated act rest, data, assigns, flag, h => by
    simp only [runProcs] at h
    cases hfv : fieldValue camel_case bc name ti repeated act data with
    | error e => rw [hfv] at h; simp [exc_bind_err] at h
    | ok value =>
      rw [hfv, exc_bind_ok] at h
      cases hrest : runProcs camel_case bc rest data with
      | error e =>
        simp only [consField, hrest, exc_bind_err] at h
        exact absurd h (by simp)
      | ok p =>
        obtain ⟨as, emp⟩ := p
        have hIH := runProcs_names camel_case bc rest data as emp hrest
        simp only [consField, hrest, exc_bind_ok, Except.ok.injEq, Prod.mk.injEq] at h
        obtain ⟨h1, h2⟩ := h
        subst h1
        simp [Procs.names, hIH]
termination_by _ _ ps _ _ _ _ => sizeOf ps
decreasing_by
  all_goals simp_wf
  all_goals simp_arith

/-- Whether a schema declares a field of the given name. -/
def Fields.hasName : Fields → String → Bool
  | .nil, _ => false
  | .cons n _ _ rest, name => n == name || rest.hasName name

/-- Compilation only consults the hint table at the schema's declared
field names: two hint tables agreeing there compile identically, so a
hint whose name is not a schema field has no effect. -/
theorem preprocess_hints_congr : ∀ (camel_case : Bool) (bc : Nat) (fields : Fields)
    (hints hints' : HintDict),
    (∀ name, fields.hasName name = true → hints.find? name = hints'.find? name) →
    preprocess_hints camel_case bc fields hints = preprocess_hints camel_case bc fields hints'
  | camel_case, bc, .nil, hints, hints', h => by
    simp only [preprocess_hints]
  | camel_case, bc, .cons name ti repeated rest, hints, hints', h => by
    have hname : hints.find? name = hints'.find? name :=
      h name (by simp [Fields.hasName])
    have hrest := preprocess_hints_congr camel_case bc rest hints hints'
      (fun n hn => h n (by simp [Fields.hasName, hn]))
    simp only [preprocess_hints, hname, hrest]
termination_by _ _ fields _ _ _ => sizeOf fields
decreasing_by
  all_goals simp_wf
  all_goals simp_arith

theorem Fields.fieldsSizeOf_pos : ∀ (f : Fields), 1 ≤ sizeOf f
  | .nil => by simp_arith
  | .cons _ _ _ _ => by simp_arith

/-- A repeated field without a hint compiles to the skip action. -/
theorem compileField_skip (camel_case : Bool) (bc : Nat) (name : String) (ti : PType) :
    compileField camel_case bc name ti true Option.none = .ok Option.none := by
  cases ti <;> simp [compileField]

/-- A non-repeated, non-message field without a hint compiles to the
same-name direct path. -/
theorem compileField_read (camel_case : Bool) (bc : Nat) (name : String) (ti : PType)
    (hti : ti.isMsg = false) :
    compileField camel_case bc name ti false Option.none = .ok (some (.read name)) := by
  cases ti <;> simp_all [compileField, PType.isMsg]

/-- A non-repeated nested-message field without a hint compiles via
the dict branch with the field's own name and no extra hints. -/
theorem compileField_msg (camel_case : Bool) (bc : Nat) (name : String) (m : MsgType) :
    compileField camel_case bc name (.msg m) false Option.none =
      compileDict camel_case bc name (.msg m) false name .nil := by
  simp [compileField]

/-- Compiling with an empty hint table never errors: every field takes
its default action. -/
theorem preprocess_nil_ok : ∀ (N : Nat) (camel_case : Bool) (bc : Nat) (fields : Fields),
    sizeOf fields ≤ N → ∃ ps, preprocess_hints camel_case bc fields .nil = .ok ps := by
  intro N
  induction N with
  | zero =>
    intro camel_case bc fields hle
    have := fields.fieldsSizeOf_pos
    omega
  | succ n ih =>
    intro camel_case bc fields hle
    match fields with
    | .nil => exact ⟨.nil, by simp [preprocess_hints]⟩
    | .cons name ti repeated rest =>
      have hrest_le : sizeOf rest ≤ n := by
        simp_arith at hle
        omega
      obtain ⟨rps, hrps⟩ := ih camel_case bc rest hrest_le
      cases repeated with
      | true =>
        refine ⟨.cons name ti true Option.none rps, ?_⟩
        simp only [preprocess_hints, compileField_skip, hrps, exc_bind_ok,
          show HintDict.nil.find? name = Option.none from rfl]
      | false =>
        cases ti with
        | msg m =>
          match m with
          | .mk classId f =>
            have hf : sizeOf f ≤ n := by
              simp_arith at hle
              omega
            obtain ⟨fps, hfps⟩ := ih camel_case (if bc = 0 then BYTES_HEX else bc) f hf
            refine ⟨.cons name (.msg (.mk classId f)) false
              (some (.sub (.mk camel_case (if bc = 0 then BYTES_HEX else bc) (some name)
                (.mk classId f) fps))) rps, ?_⟩
            simp only [preprocess_hints, compileField_msg, compileDict, mkAdapter, hfps, hrps,
              exc_bind_ok, show HintDict.nil.find? name = Option.none from rfl,
              Bool.false_eq_true, if_false, ite_false]
        | uvarint =>
          exact ⟨.cons name .uvarint false (some (.read name)) rps,
            by simp only [preprocess_hints, compileField_read, hrps, exc_bind_ok,
              show HintDict.nil.find? name = Option.none from rfl,
              show PType.isMsg .uvarint = false from rfl]⟩
        | sint32 =>
          exact ⟨.cons name .sint32 false (some (.read name)) rps,
            by simp only [preprocess_hints, compileField_read, hrps, exc_bind_ok,
              show HintDict.nil.find? name = Option.none from rfl,
              show PType.isMsg .sint32 = false from rfl]⟩
        | boolT =>
          exact ⟨.cons name .boolT false (some (.read name)) rps,
            by simp only [preprocess_hints, compileField_read, hrps, exc_bind_ok,
              show HintDict.nil.find? name = Option.none from rfl,
              show PType.isMsg .boolT = false from rfl]⟩
        | bytesT =>
          exact ⟨.cons name .bytesT false (some (.read name)) rps,
            by simp only [preprocess_hints, compileField_read, hrps, exc_bind_ok,
              show HintDict.nil.find? name = Option.none from rfl,
              show PType.isMsg .bytesT = false from rfl]⟩
        | unicode =>
          exact ⟨.cons name .unicode false (some (.read name)) rps,
            by simp only [preprocess_hints, compileField_read, hrps, exc_bind_ok,
              show HintDict.nil.find? name = Option.none from rfl,
              show PType.isMsg .unicode = false from rfl]⟩

/-- Constructing an adapter with an empty hint table (the automatic
structural copy) always succeeds. -/
theorem mkAdapter_nil_ok (mt : MsgType) (sel : Option String) (camel_case : Bool)
    (bc : Nat) : ∃ a, mkAdapter mt .nil sel camel_case bc = .ok a := by
  match mt with
  | .mk classId fields =>
    obtain ⟨ps, hps⟩ := preprocess_nil_ok (sizeOf fields) camel_case
      (if bc = 0 then BYTES_HEX else bc) fields le_rfl
    refine ⟨.mk camel_case (if bc = 0 then BYTES_HEX else bc) sel (.mk classId fields) ps, ?_⟩
    simp only [mkAdapter, hps, exc_bind_ok]

/-- A demonstration schema with two non-repeated unsigned fields,
shaped like the common-transaction schema of the source's consumer. -/
def demoSchema : MsgType :=
  .mk 10 (.cons "network" .uvarint false (.cons "timestamp" .uvarint false .nil))

/-- The compiled adapter for `demoSchema` under the hint
`{timestamp: "timeStamp"}`: `network` defaults to a same-name path. -/
def demoAdapter : Adapter :=
  .mk true 1 Option.none demoSchema
    (.cons "network" .uvarint false (some (.read "network"))
      (.cons "timestamp" .uvarint false (some (.read "timeStamp")) .nil))

/-- Construction check: `demoAdapter` is exactly what adapter
compilation produces for `demoSchema` with the timestamp rename hint. -/
theorem demoAdapter_eq_mkAdapter :
    mkAdapter demoSchema (.cons "timestamp" (.path "timeStamp") .nil)
      Option.none true 0 = .ok demoAdapter := by
  simp only [mkAdapter, demoSchema, preprocess_hints, compileField, compileHint,
    exc_bind_ok, exc_bind_err, demoAdapter, BYTES_HEX, if_true, if_false,
    Bool.false_eq_true, ite_true, ite_false,
    show HintDict.find? (.cons "timestamp" (.path "timeStamp") .nil) "network" =
      Option.none from rfl,
    show HintDict.find? (.cons "timestamp" (.path "timeStamp") .nil) "timestamp" =
      some (.path "timeStamp") from rfl]

/-- An input tree whose timestamp coerces to a negative unsigned
value, driving a coercion error. -/
def demoBadInput : PyVal := .dict [("timeStamp", .int (-3))]

/-- An input tree on which `demoAdapter` succeeds. -/
def demoGoodInput : PyVal := .dict [("timeStamp", .int 12345)]

/-- `demoAdapter` raises a coercion error on `demoBadInput`. -/
theorem demoAdapter_error :
    applyAdapter demoAdapter demoBadInput =
      .error (.adapterError "Negative number in unsigned field timestamp") := by
  simp only [demoAdapter, demoBadInput, demoSchema, applyAdapter, runProcs, fieldValue,
    runAction, consField, selectStep, exc_bind_ok, exc_bind_err, elide, MsgType.classIdOf,
    PyVal.isNoneOrEmptyList,
    show traverse_path true "network" (.dict [("timeStamp", .int (-3))]) = .ok .none from rfl,
    show traverse_path true "timeStamp" (.dict [("timeStamp", .int (-3))]) =
      .ok (.int (-3)) from rfl,
    show coerce "network" .none .uvarint false = .ok .none from rfl,
    show coerce "timestamp" (.int (-3)) .uvarint false =
      .error (.adapterError "Negative number in unsigned field timestamp") from rfl]

/-- C4: when `select_field` is set (non-empty, hence truthy) and that
key is absent from the input mapping under case-sensitive lookup,
invocation returns `None` immediately, for any processors and any rest
of the input tree, with no coercion error. -/
theorem C4_select_field_absent (camel_case : Bool) (bc : Nat) (s : String)
    (mt : MsgType) (procs : Procs) (entries : List (String × PyVal))
    (hs : s ≠ "") (habsent : dictGet s entries = Option.none) :
    applyAdapter (.mk camel_case bc (some s) mt procs) (.dict entries) = .ok .none := by
  simp [applyAdapter, selectStep, hs, habsent, exc_bind_ok]

/-- Witness for C4: a missing `importanceTransfer` key elides the
sub-message even though the rest of the tree would not coerce. -/
theorem C4_witness :
    applyAdapter (.mk true 1 (some "importanceTransfer") demoSchema
        (.cons "network" .uvarint false (some (.read "network"))
          (.cons "timestamp" .uvarint false (some (.read "timeStamp")) .nil)))
      (.dict [("type", .int 2049), ("version", .int (-12345))]) = .ok .none :=
  C4_select_field_absent true 1 "importanceTransfer" demoSchema
    (.cons "network" .uvarint false (some (.read "network"))
      (.cons "timestamp" .uvarint false (some (.read "timeStamp")) .nil))
    [("type", .int 2049), ("version", .int (-12345))] (by decide) (by rfl)

/-- C8: a coercion error aborts the invocation with the error as the
only outcome — no record, partially populated or otherwise, is
returned — and the adapter, an immutable value, is unchanged: a
sequence of invocations is pointwise `applyAdapter`, so surrounding
invocations are unaffected by the failing one. -/
theorem C8_coercion_error_isolation (a : Adapter) (d : PyVal) (e : PyErr)
    (herr : applyAdapter a d = .error e) :
    (∀ v, applyAdapter a d ≠ .ok v) ∧
    (∀ pre post, applySeq a (pre ++ d :: post) =
        applySeq a pre ++ Except.error e :: applySeq a post) := by
  constructor
  · intro v hok
    rw [herr] at hok
    exact absurd hok (by simp)
  · intro pre post
    simp [applySeq, herr]

/-- Witness for C8: around the failing invocation, the neighbouring
invocations of the same adapter are untouched. -/
theorem C8_witness :
    (applyAdapter demoAdapter demoBadInput ≠
      .ok (.record 10 [("network", .none), ("timestamp", .int (-3))])) ∧
    applySeq demoAdapter ([demoGoodInput] ++ demoBadInput :: [demoGoodInput]) =
      applySeq demoAdapter [demoGoodInput] ++
        Except.error (.adapterError "Negative number in unsigned field timestamp") ::
        applySeq demoAdapter [demoGoodInput] :=
  ⟨(C8_coercion_error_isolation demoAdapter demoBadInput _ demoAdapter_error).1 _,
    (C8_coercion_error_isolation demoAdapter demoBadInput _ demoAdapter_error).2
      [demoGoodInput] [demoGoodInput]⟩

/-- The field loop of `demoAdapter` on the good input computes `None`
for `network` and `12345` for `timestamp`. -/
theorem demoRunProcs :
    runProcs true 1 (.cons "network" .uvarint false (some (.read "network"))
      (.cons "timestamp" .uvarint false (some (.read "timeStamp")) .nil)) demoGoodInput
    = .ok ([("network", .none), ("timestamp", .int 12345)], false) := by
  simp only [demoGoodInput, runProcs, fieldValue, runAction, consField, exc_bind_ok,
    exc_bind_err, PyVal.isNoneOrEmptyList, Bool.and_true, Bool.true_and, Bool.and_false,
    Bool.false_and,
    show traverse_path true "network" (.dict [("timeStamp", .int 12345)]) = .ok .none from rfl,
    show traverse_path true "timeStamp" (.dict [("timeStamp", .int 12345)]) =
      .ok (.int 12345) from rfl,
    show coerce "network" .none .uvarint false = .ok .none from rfl,
    show coerce "timestamp" (.int 12345) .uvarint false = .ok (.int 12345) from rfl]

/-- C1: once the select step admits a working tree and every field's
typed value is computed, an invocation returns `None` when every value
is null or an empty list, and otherwise returns a record of the
adapter's schema with every declared field set to its computed typed
value — never an all-default instance. -/
theorem C1_empty_record_elision (camel_case : Bool) (bc : Nat) (sel : Option String)
    (mt : MsgType) (procs : Procs) (data workTree : PyVal)
    (assigns : List (String × PyVal)) (flag : Bool)
    (hsel : selectStep sel data = .ok (some workTree))
    (hrun : runProcs camel_case bc procs workTree = .ok (assigns, flag)) :
    ((∀ p ∈ assigns, (Prod.snd p).isNoneOrEmptyList = true) →
        applyAdapter (.mk camel_case bc sel mt procs) data = .ok .none) ∧
    ((∃ p ∈ assigns, (Prod.snd p).isNoneOrEmptyList = false) →
        applyAdapter (.mk camel_case bc sel mt procs) data
          = .ok (.record mt.classIdOf assigns)) ∧
    assigns.map Prod.fst = procs.names := by
  have hflag := runProcs_flag camel_case bc procs workTree assigns flag hrun
  have happly : applyAdapter (.mk camel_case bc sel mt procs) data
      = .ok (elide mt.classIdOf (assigns, flag)) := by
    simp only [applyAdapter, hsel, exc_bind_ok, hrun]
  refine ⟨?_, ?_, runProcs_names camel_case bc procs workTree assigns flag hrun⟩
  · intro hall
    have hf : flag = true := hflag.mpr hall
    rw [happly, hf]
    simp [elide]
  · rintro ⟨p, hp, hpfalse⟩
    have hf : flag = false := by
      cases hflag2 : flag with
      | false => rfl
      | true => exact absurd ((hflag.mp hflag2) p hp) (by simp [hpfalse])
    rw [happly, hf]
    simp [elide]

/-- Witness for C1: the populated `timestamp` field yields the record
with both fields set. -/
theorem C1_witness :
    applyAdapter demoAdapter demoGoodInput =
      .ok (.record 10 [("network", .none), ("timestamp", .int 12345)]) :=
  (C1_empty_record_elision true 1 Option.none demoSchema
      (.cons "network" .uvarint false (some (.read "network"))
        (.cons "timestamp" .uvarint false (some (.read "timeStamp")) .nil))
      demoGoodInput demoGoodInput
      [("network", .none), ("timestamp", .int 12345)] false
      rfl demoRunProcs).2.1 ⟨("timestamp", .int 12345), by simp, rfl⟩

/-- A schema with one non-repeated unsigned field, used nested. -/
def demoInner : MsgType := .mk 11 (.cons "v" .uvarint false .nil)

/-- A schema with one non-repeated nested-message field. -/
def demoOuter : MsgType := .mk 12 (.cons "sub" (.msg demoInner) false .nil)

/-- C3 counterexample: a bare dictionary hint at top level is NOT a
construction error — compiling the hint table `{sub: {}}` over a
schema whose `sub` field is a non-repeated nested message succeeds,
producing the same sub-adapter as the pair `(sub, {})` would. -/
theorem C3_counterexample :
    mkAdapter demoOuter (.cons "sub" (.dict .nil) .nil) Option.none true 1 =
      .ok (.mk true 1 Option.none demoOuter
        (.cons "sub" (.msg demoInner) false
          (some (.sub (.mk true 1 (some "sub") demoInner
            (.cons "v" .uvarint false (some (.read "v")) .nil)))) .nil)) := by
  simp only [mkAdapter, demoOuter, demoInner, preprocess_hints, compileField, compileHint,
    compileDict, compileField_read, exc_bind_ok, exc_bind_err, if_true, if_false, ite_true,
    ite_false, Bool.false_eq_true,
    show ((1 : Nat) = 0) = False from by simp,
    show HintDict.find? (.cons "sub" (.dict .nil) .nil) "sub" = some (.dict .nil) from rfl,
    show HintDict.find? HintDict.nil "v" = Option.none from rfl,
    show PType.isMsg .uvarint = false from rfl]

/-- A list hint on a non-repeated field always errors, whatever the
list holds. -/
theorem compileList_nonrepeated (camel_case : Bool) (bc : Nat) (name : String)
    (ti : PType) (rename : String) (l : HintList) :
    compileList camel_case bc name ti false rename l
      = .error (.valueError s!"Cannot adapt non-repeating field {name} with list.") := by
  cases l with
  | nil => simp [compileList]
  | cons item rest =>
    cases rest with
    | nil => cases item <;> cases ti <;> simp [compileList]
    | cons item2 rest2 => simp [compileList]

/-- C3 amended: adapter construction raises a descriptive error for
each of these hint shapes — a list hint whose length is not 1 on a
repeated field, any list hint on a non-repeated field, a dictionary
hint for a field whose type is not a nested message, and a plain path
string for a repeated field.  A bare dictionary at top level, however,
is not an error: it is interpreted exactly as the two-part hint
`(sameName, dict)`. -/
theorem C3_invalid_hint_shapes :
    (∀ (camel_case : Bool) (bc : Nat) (name : String) (ti : PType) (rename : String)
        (l : HintList), l.length ≠ 1 →
        ∃ msg, compileList camel_case bc name ti true rename l
          = .error (.valueError msg))
  ∧ (∀ (camel_case : Bool) (bc : Nat) (name : String) (ti : PType) (l : HintList),
        ∃ msg, compileHint camel_case bc name ti false (.listOf l)
          = .error (.valueError msg))
  ∧ (∀ (camel_case : Bool) (bc : Nat) (name rename : String) (ti : PType) (l : HintList),
        ∃ msg, compileHint camel_case bc name ti false (.pair rename (.listOf l))
          = .error (.valueError msg))
  ∧ (∀ (camel_case : Bool) (bc : Nat) (name : String) (ti : PType) (d : HintDict),
        ti.isMsg = false →
        ∃ msg, compileHint camel_case bc name ti false (.dict d)
          = .error (.valueError msg))
  ∧ (∀ (camel_case : Bool) (bc : Nat) (name rename : String) (ti : PType) (d : HintDict),
        ti.isMsg = false →
        ∃ msg, compileHint camel_case bc name ti false (.pair rename (.dict d))
          = .error (.valueError msg))
  ∧ (∀ (camel_case : Bool) (bc : Nat) (name : String) (ti : PType) (p : String),
        ∃ msg, compileHint camel_case bc name ti true (.path p)
          = .error (.valueError msg))
  ∧ (∀ (camel_case : Bool) (bc : Nat) (name : String) (ti : PType) (repeated : Bool)
        (d : HintDict),
        compileHint camel_case bc name ti repeated (.dict d)
          = compileHint camel_case bc name ti repeated (.pair name (.dict d))) := by
  refine ⟨?_, ?_, ?_, ?_, ?_, ?_, ?_⟩
  · intro camel_case bc name ti rename l hlen
    cases l with
    | nil =>
      simp only [compileList, Bool.not_true, Bool.false_eq_true, ite_false]
      exact ⟨_, rfl⟩
    | cons item rest =>
      cases rest with
      | nil =>
        exact absurd (show (HintList.cons item HintList.nil).length = 1 by
          simp [HintList.length]) hlen
      | cons item2 rest2 =>
        simp only [compileList, Bool.not_true, Bool.false_eq_true, ite_false]
        exact ⟨_, rfl⟩
  · intro camel_case bc name ti l
    simp only [compileHint, compileList_nonrepeated]
    exact ⟨_, rfl⟩
  · intro camel_case bc name rename ti l
    simp only [compileHint, compileList_nonrepeated]
    exact ⟨_, rfl⟩
  · intro camel_case bc name ti d hti
    cases ti with
      | msg m => exact absurd hti (by simp [PType.isMsg])
      | uvarint =>
        simp only [compileHint, compileDict, Bool.false_eq_true, ite_false]
        exact ⟨_, rfl⟩
      | sint32 =>
        simp only [compileHint, compileDict, Bool.false_eq_true, ite_false]
        exact ⟨_, rfl⟩
      | boolT =>
        simp only [compileHint, compileDict, Bool.false_eq_true, ite_false]
        exact ⟨_, rfl⟩
      | bytesT =>
        simp only [compileHint, compileDict, Bool.false_eq_true, ite_false]
        exact ⟨_, rfl⟩
      | unicode =>
        simp only [compileHint, compileDict, Bool.false_eq_true, ite_false]
        exact ⟨_, rfl⟩
  · intro camel_case bc name rename ti d hti
    cases ti with
      | msg m => exact absurd hti (by simp [PType.isMsg])
      | uvarint =>
        simp only [compileHint, compileDict, Bool.false_eq_true, ite_false]
        exact ⟨_, rfl⟩
      | sint32 =>
        simp only [compileHint, compileDict, Bool.false_eq_true, ite_false]
        exact ⟨_, rfl⟩
      | boolT =>
        simp only [compileHint, compileDict, Bool.false_eq_true, ite_false]
        exact ⟨_, rfl⟩
      | bytesT =>
        simp only [compileHint, compileDict, Bool.false_eq_true, ite_false]
        exact ⟨_, rfl⟩
      | unicode =>
        simp only [compileHint, compileDict, Bool.false_eq_true, ite_false]
        exact ⟨_, rfl⟩
  · intro camel_case bc name ti p
    simp only [compileHint, eq_self_iff_true, ite_true]
    exact ⟨_, rfl⟩
  · intro camel_case bc name ti repeated d
    simp only [compileHint]

/-- Witness for the amended C3: an empty list hint on a repeated
field and a path hint on a repeated field each error. -/
theorem C3_witness :
    (∃ msg, compileList true 1 "mosaics" (.msg demoInner) true "mosaics" .nil
      = .error (.valueError msg)) ∧
    (∃ msg, compileHint true 1 "fee" .uvarint true (.path "fee")
      = .error (.valueError msg)) :=
  ⟨C3_invalid_hint_shapes.1 true 1 "mosaics" (.msg demoInner) "mosaics" .nil (by decide),
    C3_invalid_hint_shapes.2.2.2.2.2.1 true 1 "fee" .uvarint "fee"⟩

/-- C6: compilation iterates over the schema's declared fields — two
hint tables agreeing on every declared field name compile identically,
so hints naming unknown fields are accepted with no effect — and a
field without an explicit hint defaults to skip when repeated, to an
auto-recursing sub-adapter (`(sameName, {})`, whose construction
always succeeds) when its type is a nested message, and to the
same-name direct path otherwise. -/
theorem C6_schema_iteration_and_defaults :
    (∀ (camel_case : Bool) (bc : Nat) (fields : Fields) (hints hints' : HintDict),
        (∀ name, fields.hasName name = true → hints.find? name = hints'.find? name) →
        preprocess_hints camel_case bc fields hints
          = preprocess_hints camel_case bc fields hints')
  ∧ (∀ (camel_case : Bool) (bc : Nat) (name : String) (ti : PType) (rest : Fields)
        (hints : HintDict), hints.find? name = Option.none →
        preprocess_hints camel_case bc (.cons name ti true rest) hints =
          Except.bind (preprocess_hints camel_case bc rest hints) (fun r =>
            .ok (.cons name ti true Option.none r)))
  ∧ (∀ (camel_case : Bool) (bc : Nat) (name : String) (m : MsgType) (rest : Fields)
        (hints : HintDict), hints.find? name = Option.none →
        ∃ a, mkAdapter m .nil (some name) camel_case bc = .ok a ∧
          preprocess_hints camel_case bc (.cons name (.msg m) false rest) hints =
            Except.bind (preprocess_hints camel_case bc rest hints) (fun r =>
              .ok (.cons name (.msg m) false (some (.sub a)) r)))
  ∧ (∀ (camel_case : Bool) (bc : Nat) (name : String) (ti : PType) (rest : Fields)
        (hints : HintDict), ti.isMsg = false → hints.find? name = Option.none →
        preprocess_hints camel_case bc (.cons name ti false rest) hints =
          Except.bind (preprocess_hints camel_case bc rest hints) (fun r =>
            .ok (.cons name ti false (some (.read name)) r))) := by
  refine ⟨preprocess_hints_congr, ?_, ?_, ?_⟩
  · intro camel_case bc name ti rest hints hfind
    simp only [preprocess_hints, hfind, compileField_skip, exc_bind_ok]
  · intro camel_case bc name m rest hints hfind
    obtain ⟨a, ha⟩ := mkAdapter_nil_ok m (some name) camel_case bc
    refine ⟨a, ha, ?_⟩
    simp only [preprocess_hints, hfind, compileField_msg, compileDict, Bool.false_eq_true,
      ite_false, ha, exc_bind_ok]
  · intro camel_case bc name ti rest hints hti hfind
    simp only [preprocess_hints, hfind, compileField_read camel_case bc name ti hti,
      exc_bind_ok]

/-- Witness for C6: with an irrelevant hint present and none for the
declared fields, `demoOuter` compiles `sub` to the auto-recursing
sub-adapter; the unknown hint name has no effect. -/
theorem C6_witness :
    preprocess_hints true 1 (.cons "sub" (.msg demoInner) false .nil)
        (.cons "unknownField" (.path "x") .nil)
      = preprocess_hints true 1 (.cons "sub" (.msg demoInner) false .nil) .nil ∧
    ∃ a, mkAdapter demoInner .nil (some "sub") true 1 = .ok a ∧
      preprocess_hints true 1 (.cons "sub" (.msg demoInner) false .nil) HintDict.nil =
        Except.bind (preprocess_hints true 1 Fields.nil HintDict.nil) (fun r =>
          .ok (.cons "sub" (.msg demoInner) false (some (.sub a)) r)) :=
  ⟨C6_schema_iteration_and_defaults.1 true 1 (.cons "sub" (.msg demoInner) false .nil)
      (.cons "unknownField" (.path "x") .nil) .nil
      (fun name hname => by
        have hsub : "sub" = name := by
          simpa [Fields.hasName] using hname
        subst hsub
        rfl),
    C6_schema_iteration_and_defaults.2.2.1 true 1 "sub" demoInner .nil HintDict.nil rfl⟩

/-- The per-item sub-adapter map succeeds exactly element-by-element:
the output has one result per input, in order. -/
theorem mapApply_pointwise : ∀ (a : Adapter) (items vs : List PyVal),
    mapApply a items = .ok vs →
    vs.length = items.length ∧
    ∀ (i : Nat) (hi : i < items.length) (hv : i < vs.length),
      applyAdapter a (items.get ⟨i, hi⟩) = .ok (vs.get ⟨i, hv⟩)
  | a, [], vs, h => by
    simp only [mapApply, Except.ok.injEq] at h
    subst h
    exact ⟨rfl, fun i hi hv => absurd hi (by simp)⟩
  | a, x :: xs, vs, h => by
    simp only [mapApply] at h
    cases hx : applyAdapter a x with
    | error e => rw [hx] at h; simp [exc_bind_err] at h
    | ok v =>
      rw [hx, exc_bind_ok] at h
      cases hrest : mapApply a xs with
      | error e => rw [hrest] at h; simp [exc_bind_err] at h
      | ok ws =>
        rw [hrest, exc_bind_ok] at h
        simp only [Except.ok.injEq] at h
        subst h
        obtain ⟨hlen, hpt⟩ := mapApply_pointwise a xs ws hrest
        refine ⟨by simp [hlen], ?_⟩
        intro i hi hv
        match i with
        | 0 => simpa using hx
        | Nat.succ j =>
          simpa using hpt j (by simpa using hi) (by simpa using hv)

/-- The per-item transform map succeeds exactly element-by-element:
the output has one result per input, in order. -/
theorem mapMF_pointwise : ∀ (f : PyVal → Except PyErr PyVal) (items vs : List PyVal),
    mapMF f items = .ok vs →
    vs.length = items.length ∧
    ∀ (i : Nat) (hi : i < items.length) (hv : i < vs.length),
      f (items.get ⟨i, hi⟩) = .ok (vs.get ⟨i, hv⟩)
  | f, [], vs, h => by
    simp only [mapMF, Except.ok.injEq] at h
    subst h
    exact ⟨rfl, fun i hi hv => absurd hi (by simp)⟩
  | f, x :: xs, vs, h => by
    simp only [mapMF] at h
    cases hx : f x with
    | error e => rw [hx] at h; simp [exc_bind_err] at h
    | ok v =>
      rw [hx, exc_bind_ok] at h
      cases hrest : mapMF f xs with
      | error e => rw [hrest] at h; simp [exc_bind_err] at h
      | ok ws =>
        rw [hrest, exc_bind_ok] at h
        simp only [Except.ok.injEq] at h
        subst h
        obtain ⟨hlen, hpt⟩ := mapMF_pointwise f xs ws hrest
        refine ⟨by simp [hlen], ?_⟩
        intro i hi hv
        match i with
        | 0 => simpa using hx
        | Nat.succ j =>
          simpa using hpt j (by simpa using hi) (by simpa using hv)

/-- C7: a two-part hint whose second part is a one-item list compiles,
on a repeated field, to the map action over the per-item sub-adapter
or transform; running that action yields the empty list — never null
and never an error — when the rename path resolves to null, and
otherwise applies the per-item adapter or transform to every element
of the resolved iterable in order, collecting the results into a
list. -/
theorem C7_repeated_field_mapping :
    (∀ (camel_case : Bool) (bc : Nat) (name : String) (m : MsgType) (rename : String)
        (inner : HintDict),
        compileList camel_case bc name (.msg m) true rename (.cons (.dict inner) .nil) =
          Except.bind (mkAdapter m inner Option.none camel_case bc)
            (fun a => .ok (some (.mapSub rename a))))
  ∧ (∀ (camel_case : Bool) (bc : Nat) (name : String) (ti : PType) (rename : String)
        (f : PyVal → Except PyErr PyVal),
        compileList camel_case bc name ti true rename (.cons (.fn f) .nil) =
          .ok (some (.mapFn rename f)))
  ∧ (∀ (camel_case : Bool) (bc : Nat) (rename : String) (a : Adapter) (data : PyVal),
        traverse_path camel_case rename data = .ok .none →
        runAction camel_case bc (.mapSub rename a) data = .ok (.list []))
  ∧ (∀ (camel_case : Bool) (bc : Nat) (rename : String)
        (f : PyVal → Except PyErr PyVal) (data : PyVal),
        traverse_path camel_case rename data = .ok .none →
        runAction camel_case bc (.mapFn rename f) data = .ok (.list []))
  ∧ (∀ (camel_case : Bool) (bc : Nat) (rename : String) (a : Adapter)
        (data v : PyVal) (items : List PyVal),
        traverse_path camel_case rename data = .ok v → pyIter v = some items →
        runAction camel_case bc (.mapSub rename a) data =
          Except.bind (mapApply a items) (fun vs => .ok (.list vs)))
  ∧ (∀ (camel_case : Bool) (bc : Nat) (rename : String)
        (f : PyVal → Except PyErr PyVal) (data v : PyVal) (items : List PyVal),
        traverse_path camel_case rename data = .ok v → pyIter v = some items →
        runAction camel_case bc (.mapFn rename f) data =
          Except.bind (mapMF f items) (fun vs => .ok (.list vs)))
  ∧ (∀ (a : Adapter) (items vs : List PyVal), mapApply a items = .ok vs →
        vs.length = items.length ∧
        ∀ (i : Nat) (hi : i < items.length) (hv : i < vs.length),
          applyAdapter a (items.get ⟨i, hi⟩) = .ok (vs.get ⟨i, hv⟩))
  ∧ (∀ (f : PyVal → Except PyErr PyVal) (items vs : List PyVal),
        mapMF f items = .ok vs →
        vs.length = items.length ∧
        ∀ (i : Nat) (hi : i < items.length) (hv : i < vs.length),
          f (items.get ⟨i, hi⟩) = .ok (vs.get ⟨i, hv⟩)) := by
  refine ⟨?_, ?_, ?_, ?_, ?_, ?_, mapApply_pointwise, mapMF_pointwise⟩
  · intro camel_case bc name m rename inner
    simp [compileList]
  · intro camel_case bc name ti rename f
    cases ti <;> simp [compileList]
  · intro camel_case bc rename a data h
    simp only [runAction, h, exc_bind_ok]
  · intro camel_case bc rename f data h
    simp only [runAction, h, exc_bind_ok]
  · intro camel_case bc rename a data v items htrav hiter
    cases v <;> simp_all [runAction, pyIter, exc_bind_ok]
  · intro camel_case bc rename f data v items htrav hiter
    cases v <;> simp_all [runAction, pyIter, exc_bind_ok]

/-- Witness for C7: an absent path yields the empty list, and a
present one-element list is mapped elementwise. -/
theorem C7_witness :
    runAction true 1 (.mapSub "mosaics" demoAdapter) (.dict [("x", .int 0)])
      = .ok (.list []) ∧
    runAction true 1 (.mapFn "values" (fun v => .ok v))
        (.dict [("values", .list [.int 7])]) =
      Except.bind (mapMF (fun v => .ok v) [.int 7]) (fun vs => .ok (.list vs)) :=
  ⟨C7_repeated_field_mapping.2.2.1 true 1 "mosaics" demoAdapter (.dict [("x", .int 0)]) rfl,
    C7_repeated_field_mapping.2.2.2.2.2.1 true 1 "values" (fun v => .ok v)
      (.dict [("values", .list [.int 7])]) (.list [.int 7]) [.int 7] rfl rfl⟩

end Mapping
